import Mathlib

/-!
Verification development for the CipherHub encrypted-credential vault.

The definitions below are a shallow embedding of the Go sources
(`internal/crypto/crypto.go`, `internal/vault/vault.go`,
`internal/storage/local.go`, `pkg/types/types.go`):

* Go strings are modelled at rune level as `List Char`, byte slices as
  `List Nat` with elements `< 256`.
* Randomness (salts, nonces, UUIDs) and the clock are passed in as explicit
  parameters: each Go call site that draws fresh randomness or reads
  `time.Now()` becomes an extra argument of the corresponding Lean function.
* AES-256-GCM and Argon2id are modelled as an ideal authenticated cipher:
  the derived key is the (password, salt) pair itself, and a sealed blob is an
  injective byte encoding of (key, nonce, plaintext) which `gcmOpen` checks
  and inverts.  This idealisation gives the cipher perfect authenticity
  (decryption under any other key or of any tampered blob fails), which is
  the behaviour the AEAD contract guarantees up to negligible probability.
* `encoding/base64` (std, padded) and SHA-256 are implemented concretely.
* JSON serialization follows `json.MarshalIndent(v, "", "  ")` field for
  field; `time.Time` values are abstract instants (`Nat`) rendered as quoted
  decimal strings, standing in for RFC3339 text.
-/

namespace CipherHub

/-- Go `string` at rune level. -/
abbrev Str := List Char

/-- Go `[]byte`; a well-formed byte sequence has every element `< 256`. -/
abbrev Bytes := List Nat

/-- Every element of the sequence is a genuine byte. -/
def BytesOk (b : Bytes) : Prop := ∀ x ∈ b, x < 256

instance : DecidablePred BytesOk := fun b =>
  inferInstanceAs (Decidable (∀ x ∈ b, x < 256))

/-! ## base64 (Go `encoding/base64` StdEncoding, padded) -/

/-- The standard base64 alphabet. -/
def b64Alphabet : Str :=
  "ABCDEFGHIJKLMNOPQRSTUVWXYZabcdefghijklmnopqrstuvwxyz0123456789+/".toList

/-- Sextet to alphabet character. -/
def b64Chr (s : Nat) : Char := b64Alphabet.getD s 'A'

def b64IdxAux : Str → Char → Nat → Option Nat
  | [], _, _ => none
  | a :: rest, c, i => if a = c then some i else b64IdxAux rest c (i + 1)

/-- Alphabet character back to its sextet; `none` off the alphabet. -/
def b64Idx (c : Char) : Option Nat := b64IdxAux b64Alphabet c 0

/-- `base64.StdEncoding.EncodeToString`: 3 input bytes per 4 output
characters, `=`-padded tail. -/
def b64Encode : Bytes → Str
  | [] => []
  | [b1] => [b64Chr (b1 / 4), b64Chr (b1 % 4 * 16), '=', '=']
  | [b1, b2] =>
      [b64Chr (b1 / 4), b64Chr (b1 % 4 * 16 + b2 / 16), b64Chr (b2 % 16 * 4), '=']
  | b1 :: b2 :: b3 :: rest =>
      b64Chr (b1 / 4) :: b64Chr (b1 % 4 * 16 + b2 / 16) ::
      b64Chr (b2 % 16 * 4 + b3 / 64) :: b64Chr (b3 % 64) :: b64Encode rest

/-- `base64.StdEncoding.DecodeString`: strict groups of four characters,
padding only in the final group; `none` on any malformed input.  (Go's
decoder additionally skips CR/LF; inputs here never contain them.) -/
def b64Decode : Str → Option Bytes
  | [] => some []
  | c1 :: c2 :: c3 :: c4 :: rest =>
    match b64Idx c1, b64Idx c2 with
    | some s1, some s2 =>
      if c3 = '=' then
        if c4 = '=' ∧ rest = [] then some [s1 * 4 + s2 / 16] else none
      else
        match b64Idx c3 with
        | some s3 =>
          if c4 = '=' then
            if rest = [] then some [s1 * 4 + s2 / 16, s2 % 16 * 16 + s3 / 4]
            else none
          else
            match b64Idx c4 with
            | some s4 =>
              match b64Decode rest with
              | some bs =>
                  some ((s1 * 4 + s2 / 16) :: (s2 % 16 * 16 + s3 / 4) ::
                        (s3 % 4 * 64 + s4) :: bs)
              | none => none
            | none => none
        | none => none
    | _, _ => none
  | _ => none

theorem b64Idx_chr {s : Nat} (h : s < 64) : b64Idx (b64Chr s) = some s := by
  revert h; revert s; decide

theorem b64Chr_ne_pad {s : Nat} (h : s < 64) : b64Chr s ≠ '=' := by
  revert h; revert s; decide

/-- Decoding inverts encoding on genuine byte sequences. -/
theorem b64_decode_encode (bs : Bytes) (h : BytesOk bs) :
    b64Decode (b64Encode bs) = some bs := by
  induction bs using b64Encode.induct with
  | case1 => rfl
  | case2 b1 =>
      have hb1 : b1 < 256 := h b1 (by simp)
      have h1 : b64Idx (b64Chr (b1 / 4)) = some (b1 / 4) := b64Idx_chr (by omega)
      have h2 : b64Idx (b64Chr (b1 % 4 * 16)) = some (b1 % 4 * 16) :=
        b64Idx_chr (by omega)
      simp [b64Encode, b64Decode, h1, h2]
      omega
  | case3 b1 b2 =>
      have hb1 : b1 < 256 := h b1 (by simp)
      have hb2 : b2 < 256 := h b2 (by simp)
      have h1 : b64Idx (b64Chr (b1 / 4)) = some (b1 / 4) := b64Idx_chr (by omega)
      have h2 : b64Idx (b64Chr (b1 % 4 * 16 + b2 / 16)) =
          some (b1 % 4 * 16 + b2 / 16) := b64Idx_chr (by omega)
      have h3 : b64Idx (b64Chr (b2 % 16 * 4)) = some (b2 % 16 * 4) :=
        b64Idx_chr (by omega)
      have n3 : b64Chr (b2 % 16 * 4) ≠ '=' := b64Chr_ne_pad (by omega)
      simp [b64Encode, b64Decode, h1, h2, h3, if_neg n3]
      omega
  | case4 b1 b2 b3 rest ih =>
      have hb1 : b1 < 256 := h b1 (by simp)
      have hb2 : b2 < 256 := h b2 (by simp)
      have hb3 : b3 < 256 := h b3 (by simp)
      have hrest : BytesOk rest := fun x hx => h x (by simp [hx])
      have h1 : b64Idx (b64Chr (b1 / 4)) = some (b1 / 4) := b64Idx_chr (by omega)
      have h2 : b64Idx (b64Chr (b1 % 4 * 16 + b2 / 16)) =
          some (b1 % 4 * 16 + b2 / 16) := b64Idx_chr (by omega)
      have h3 : b64Idx (b64Chr (b2 % 16 * 4 + b3 / 64)) =
          some (b2 % 16 * 4 + b3 / 64) := b64Idx_chr (by omega)
      have h4 : b64Idx (b64Chr (b3 % 64)) = some (b3 % 64) :=
        b64Idx_chr (by omega)
      have n3 : b64Chr (b2 % 16 * 4 + b3 / 64) ≠ '=' := b64Chr_ne_pad (by omega)
      have n4 : b64Chr (b3 % 64) ≠ '=' := b64Chr_ne_pad (by omega)
      simp [b64Encode, b64Decode, h1, h2, h3, h4, if_neg n3, if_neg n4,
        ih hrest]
      omega

/-- Length of a base64 encoding: four characters per started 3-byte group. -/
theorem b64Encode_length (bs : Bytes) :
    (b64Encode bs).length = 4 * ((bs.length + 2) / 3) := by
  induction bs using b64Encode.induct with
  | case1 => rfl
  | case2 b1 => simp [b64Encode]
  | case3 b1 b2 => simp [b64Encode]
  | case4 b1 b2 b3 rest ih =>
      simp only [b64Encode, List.length_cons, ih]
      omega

/-! ## SHA-256 (`crypto/sha256`), word arithmetic on `Nat` mod `2^32` -/

/-- Truncate to a 32-bit word. -/
def w32 (x : Nat) : Nat := x % 4294967296

/-- Rotate a word right by `n` bits, staying inside 32 bits. -/
def rotr (n x : Nat) : Nat := w32 ((x >>> n) ||| (x <<< (32 - n)))

def shaCh (x y z : Nat) : Nat := (x &&& y) ^^^ ((x ^^^ 4294967295) &&& z)

def shaMaj (x y z : Nat) : Nat := (x &&& y) ^^^ (x &&& z) ^^^ (y &&& z)

def bigSig0 (x : Nat) : Nat := rotr 2 x ^^^ rotr 13 x ^^^ rotr 22 x

def bigSig1 (x : Nat) : Nat := rotr 6 x ^^^ rotr 11 x ^^^ rotr 25 x

def smallSig0 (x : Nat) : Nat := rotr 7 x ^^^ rotr 18 x ^^^ (x >>> 3)

def smallSig1 (x : Nat) : Nat := rotr 17 x ^^^ rotr 19 x ^^^ (x >>> 10)

/-- The 64 round constants of FIPS 180-4 (decimal). -/
def shaK : List Nat :=
  [1116352408, 1899447441, 3049323471, 3921009573, 961987163,
   1508970993, 2453635748, 2870763221, 3624381080, 310598401,
   607225278, 1426881987, 1925078388, 2162078206, 2614888103,
   3248222580, 3835390401, 4022224774, 264347078, 604807628,
   770255983, 1249150122, 1555081692, 1996064986, 2554220882,
   2821834349, 2952996808, 3210313671, 3336571891, 3584528711,
   113926993, 338241895, 666307205, 773529912, 1294757372,
   1396182291, 1695183700, 1986661051, 2177026350, 2456956037,
   2730485921, 2820302411, 3259730800, 3345764771, 3516065817,
   3600352804, 4094571909, 275423344, 430227734, 506948616,
   659060556, 883997877, 958139571, 1322822218, 1537002063,
   1747873779, 1955562222, 2024104815, 2227730452, 2361852424,
   2428436474, 2756734187, 3204031479, 3329325298]

/-- Big-endian 8-byte rendering of a (64-bit) length. -/
def lenBytes8 (n : Nat) : Bytes :=
  [n >>> 56 % 256, n >>> 48 % 256, n >>> 40 % 256, n >>> 32 % 256,
   n >>> 24 % 256, n >>> 16 % 256, n >>> 8 % 256, n % 256]

/-- Big-endian 4-byte rendering of a 32-bit word. -/
def word4 (x : Nat) : Bytes := [x >>> 24 % 256, x >>> 16 % 256, x >>> 8 % 256, x % 256]

/-- Merkle–Damgård padding: `0x80`, zeros to 56 mod 64, 8-byte bit length. -/
def shaPad (msg : Bytes) : Bytes :=
  msg ++ 0x80 :: List.replicate ((55 - msg.length % 64 + 64) % 64) 0 ++
    lenBytes8 (8 * msg.length)

def chunksGo : Nat → Bytes → List Bytes
  | _, [] => []
  | 0, _ => []
  | fuel + 1, x :: rest => ((x :: rest).take 64) :: chunksGo fuel ((x :: rest).drop 64)

/-- Split into 64-byte blocks (fuel keeps the recursion structural; the list
shrinks by at least one element per step, so `b.length` fuel always suffices). -/
def chunks64 (b : Bytes) : List Bytes := chunksGo b.length b

/-- Big-endian 32-bit words of a byte block. -/
def wordsOfBytes : Bytes → List Nat
  | a :: b :: c :: d :: rest =>
      (a * 16777216 + b * 65536 + c * 256 + d) :: wordsOfBytes rest
  | _ => []

/-- Extend the 16 block words by `n` more message-schedule words. -/
def schedExt : Nat → List Nat → List Nat
  | 0, w => w
  | n + 1, w =>
      let L := w.length
      let x := w32 (smallSig1 (w.getD (L - 2) 0) + w.getD (L - 7) 0 +
                    smallSig0 (w.getD (L - 15) 0) + w.getD (L - 16) 0)
      schedExt n (w ++ [x])

/-- The eight 32-bit words of a SHA-256 state. -/
structure H8 where
  a : Nat
  b : Nat
  c : Nat
  d : Nat
  e : Nat
  f : Nat
  g : Nat
  h : Nat
deriving DecidableEq, Repr

/-- The eight initial hash words of FIPS 180-4 (decimal). -/
def shaH0 : H8 :=
  ⟨1779033703, 3144134277, 1013904242, 2773480762,
   1359893119, 2600822924, 528734635, 1541459225⟩

/-- One compression round. -/
def shaRound (st : H8) (k w : Nat) : H8 :=
  let t1 := w32 (st.h + bigSig1 st.e + shaCh st.e st.f st.g + k + w)
  let t2 := w32 (bigSig0 st.a + shaMaj st.a st.b st.c)
  ⟨w32 (t1 + t2), st.a, st.b, st.c, w32 (st.d + t1), st.e, st.f, st.g⟩

/-- Compress one 64-byte block into the running state. -/
def processBlock (st : H8) (block : Bytes) : H8 :=
  let w := schedExt 48 (wordsOfBytes block)
  let r := (shaK.zip w).foldl (fun s kw => shaRound s kw.1 kw.2) st
  ⟨w32 (st.a + r.a), w32 (st.b + r.b), w32 (st.c + r.c), w32 (st.d + r.d),
   w32 (st.e + r.e), w32 (st.f + r.f), w32 (st.g + r.g), w32 (st.h + r.h)⟩

/-- `sha256.Sum256`: the 32 digest bytes of a message. -/
def sha256 (msg : Bytes) : Bytes :=
  let fin := (chunks64 (shaPad msg)).foldl processBlock shaH0
  word4 fin.a ++ word4 fin.b ++ word4 fin.c ++ word4 fin.d ++
  word4 fin.e ++ word4 fin.f ++ word4 fin.g ++ word4 fin.h

theorem sha256_length (msg : Bytes) : (sha256 msg).length = 32 := by
  simp [sha256, word4]

/-- `crypto.ComputeChecksum`: base64 of the SHA-256 digest. -/
def ComputeChecksum (data : Bytes) : Str := b64Encode (sha256 data)

/-- A checksum string always has 44 characters. -/
theorem ComputeChecksum_length (data : Bytes) :
    (ComputeChecksum data).length = 44 := by
  simp [ComputeChecksum, b64Encode_length, sha256_length]

/-! ## Error values

One inductive collects the `errors.New` values of `internal/crypto` and
`internal/vault`, plus the storage sentinel `ErrStorageNotFound`. -/

inductive Err where
  | vaultNotOpen
  | vaultAlreadyOpen
  | vaultExists
  | entryNotFound
  | entryExists
  | invalidPassword
  | vaultCorrupted
  | randomGenFailed
  | invalidKeyLength
  | invalidCiphertext
  | decryptionFailed
  | invalidNonceLength
  | storageNotFound
deriving DecidableEq, Repr

instance {ε α : Type} [DecidableEq ε] [DecidableEq α] :
    DecidableEq (Except ε α) := fun x y =>
  match x, y with
  | .ok a, .ok b =>
      if h : a = b then .isTrue (by rw [h])
      else .isFalse (fun hc => h (Except.ok.inj hc))
  | .error a, .error b =>
      if h : a = b then .isTrue (by rw [h])
      else .isFalse (fun hc => h (Except.error.inj hc))
  | .ok _, .error _ => .isFalse (fun hc => Except.noConfusion hc)
  | .error _, .ok _ => .isFalse (fun hc => Except.noConfusion hc)

/-! ## Ideal AEAD cipher (model of AES-256-GCM under an Argon2id key)

A derived key is modelled as the (password, salt) pair itself — Argon2id is a
deterministic function of exactly these inputs, and the idealisation makes it
lossless.  A sealed blob is an injective byte encoding of
(key, nonce, plaintext); `gcmOpen` decodes it and checks that the recorded key
and nonce match the ones supplied, which models the AEAD authenticity
guarantee (a mismatched key or tampered blob fails to open). -/

/-- The model of a derived 32-byte key: the exact inputs of the KDF. -/
abbrev Key := Str × Bytes

/-- `deriveKey` (Argon2id, time 3, memory 64 MiB, parallelism 4, 32 bytes),
idealised as the identity on its inputs. -/
def deriveKey (password : Str) (salt : Bytes) : Key := (password, salt)

/-- Fixed-width 3-byte encoding of one rune (every scalar value is < 2^24). -/
def encChar (c : Char) : Bytes := [c.toNat / 65536, c.toNat / 256 % 256, c.toNat % 256]

/-- Byte encoding of a rune string (the model's stand-in for UTF-8:
injective, three bytes per rune). -/
def encStr : Str → Bytes
  | [] => []
  | c :: rest => encChar c ++ encStr rest

/-- Total inverse of `encStr` (invalid groups fall back to a marker, the way
Go's `string()` conversion substitutes replacement runes). -/
def strOfBytes : Bytes → Str
  | a :: b :: c :: rest => Char.ofNat (a * 65536 + b * 256 + c) :: strOfBytes rest
  | [] => []
  | _ => ['?']

/-- Read a big-endian 8-byte length off the front. -/
def natOf8 : Bytes → Option (Nat × Bytes)
  | a :: b :: c :: d :: e :: f :: g :: h2 :: rest =>
      some (((((((a * 256 + b) * 256 + c) * 256 + d) * 256 + e) * 256 + f) *
            256 + g) * 256 + h2, rest)
  | _ => none

/-- Byte encoding of a key: length-prefixed password bytes, then the salt. -/
def encKey (k : Key) : Bytes :=
  lenBytes8 (encStr k.1).length ++ encStr k.1 ++ k.2

/-- Decode a key blob. -/
def decKey (b : Bytes) : Option Key :=
  match natOf8 b with
  | some (ls, rest) =>
      if rest.length < ls then none
      else some (strOfBytes (rest.take ls), rest.drop ls)
  | none => none

/-- Ideal `gcm.Seal`: the blob records key, nonce and plaintext. -/
def gcmSeal (k : Key) (nonce pt : Bytes) : Bytes :=
  lenBytes8 (encKey k).length ++ encKey k ++ lenBytes8 nonce.length ++ nonce ++ pt

/-- Ideal `gcm.Open`: decode the blob, demand the recorded key and nonce be
exactly the ones supplied. -/
def gcmOpen (k : Key) (nonce c : Bytes) : Option Bytes :=
  match natOf8 c with
  | some (lk, rest) =>
      if h : rest.length < lk then none
      else
        match decKey (rest.take lk), natOf8 (rest.drop lk) with
        | some k₀, some (ln, rest3) =>
            if rest3.length < ln then none
            else if k₀ = k ∧ rest3.take ln = nonce then some (rest3.drop ln)
            else none
        | _, _ => none
  | none => none

theorem char_toNat_lt (c : Char) : c.toNat < 1114112 := by
  have h := c.valid
  have h2 : c.toNat = c.val.toNat := rfl
  rcases h with h | h <;> omega

theorem strOfBytes_encStr (s : Str) : strOfBytes (encStr s) = s := by
  induction s with
  | nil => rfl
  | cons c rest ih =>
      have hc := char_toNat_lt c
      have e1 : c.toNat / 65536 * 65536 + c.toNat / 256 % 256 * 256 +
          c.toNat % 256 = c.toNat := by omega
      simp [encStr, encChar, strOfBytes, e1, ih, Char.ofNat_toNat]

theorem natOf8_lenBytes8 (n : Nat) (h : n < 18446744073709551616) (t : Bytes) :
    natOf8 (lenBytes8 n ++ t) = some (n, t) := by
  simp [lenBytes8, natOf8]
  omega

/-- Lengths small enough for the 8-byte length prefixes of the model. -/
def KeyOk (k : Key) : Prop :=
  8 + (encStr k.1).length + k.2.length < 18446744073709551616

instance : DecidablePred KeyOk := fun k =>
  inferInstanceAs (Decidable (_ < _))

theorem gcmOpen_gcmSeal (k : Key) (nonce pt : Bytes) (hk : KeyOk k)
    (hn : nonce.length < 18446744073709551616) :
    gcmOpen k nonce (gcmSeal k nonce pt) = some pt := by
  have hs : (encStr k.1).length < 18446744073709551616 := by
    unfold KeyOk at hk; omega
  have hek : (encKey k).length < 18446744073709551616 := by
    simp [encKey, lenBytes8]
    unfold KeyOk at hk; omega
  unfold gcmSeal gcmOpen
  simp only [List.append_assoc]
  rw [natOf8_lenBytes8 _ hek]
  dsimp only
  have h1 : ¬ ((encKey k ++ (lenBytes8 nonce.length ++ (nonce ++ pt))).length <
      (encKey k).length) := by simp
  rw [dif_neg h1, List.take_left, List.drop_left]
  have hdk : decKey (encKey k) = some k := by
    unfold decKey encKey
    simp only [List.append_assoc]
    rw [natOf8_lenBytes8 _ hs]
    dsimp only
    have h2 : ¬ ((encStr k.1 ++ k.2).length < (encStr k.1).length) := by simp
    rw [if_neg h2, List.take_left, List.drop_left, strOfBytes_encStr]
  rw [hdk, natOf8_lenBytes8 _ hn]
  dsimp only
  have h3 : ¬ ((nonce ++ pt).length < nonce.length) := by simp
  rw [if_neg h3, List.take_left]
  simp [List.drop_left]

/-! ## `internal/crypto` : Crypto engine -/

/-- GCM nonce size. -/
def nonceLength : Nat := 12

/-- `crypto.Crypto`: holds the derived key. -/
structure Crypto where
  key : Key
deriving DecidableEq, Repr

/-- `crypto.NewCrypto`. -/
def NewCrypto (masterPassword : Str) (salt : Bytes) : Crypto :=
  ⟨deriveKey masterPassword salt⟩

/-- `Crypto.Encrypt`: fresh 12-byte `nonce` drawn by the caller's randomness,
output `base64(nonce ‖ seal)`.  (The cipher-construction error paths of the
Go code cannot fire for a derived key and are not modelled.) -/
def Crypto.Encrypt (c : Crypto) (nonce : Bytes) (plaintext : Bytes) : Str :=
  b64Encode (nonce ++ gcmSeal c.key nonce plaintext)

/-- `Crypto.Decrypt`: base64-decode, fail `invalidCiphertext` if not base64;
fail `invalidNonceLength` if shorter than the nonce; split nonce off and
attempt the authenticated open, failing `decryptionFailed` on mismatch. -/
def Crypto.Decrypt (c : Crypto) (ciphertextB64 : Str) : Except Err Bytes :=
  match b64Decode ciphertextB64 with
  | none => .error .invalidCiphertext
  | some ciphertext =>
      if ciphertext.length < nonceLength then .error .invalidNonceLength
      else
        match gcmOpen c.key (ciphertext.take nonceLength)
            (ciphertext.drop nonceLength) with
        | none => .error .decryptionFailed
        | some plaintext => .ok plaintext

/-- `Crypto.EncryptString`. -/
def Crypto.EncryptString (c : Crypto) (nonce : Bytes) (plaintext : Str) : Str :=
  c.Encrypt nonce (encStr plaintext)

/-- `Crypto.DecryptString`. -/
def Crypto.DecryptString (c : Crypto) (ciphertextB64 : Str) : Except Err Str :=
  match c.Decrypt ciphertextB64 with
  | .error e => .error e
  | .ok plaintext => .ok (strOfBytes plaintext)

/-! ## `pkg/types` : Entry and Vault -/

/-- `types.Entry`.  `password` holds base64 AEAD ciphertext; `notes` holds
ciphertext when non-empty and the empty string otherwise. -/
structure Entry where
  id : Str
  name : Str
  username : Str
  password : Str
  url : Str
  notes : Str
  createdAt : Nat
  updatedAt : Nat
  tags : List Str
deriving DecidableEq, Repr

/-- `types.Vault`. -/
structure Vault where
  version : Str
  salt : Str
  checksum : Str
  entries : List Entry
  createdAt : Nat
  updatedAt : Nat
  metadata : List (Str × Str)
deriving DecidableEq, Repr

/-- `types.NewVault` at instant `t`. -/
def NewVault (t : Nat) : Vault :=
  ⟨"1.0".toList, [], [], [], t, t, []⟩

/-- `types.NewEntry` with caller-supplied random UUID `id` at instant `t`. -/
def NewEntry (id : Str) (name : Str) (t : Nat) : Entry :=
  ⟨id, name, [], [], [], [], t, t, []⟩

/-! ## JSON text (`encoding/json`, `MarshalIndent(v, "", "  ")`)

The serialized vault is modelled as the JSON text itself (`Str`); the byte
sequence fed to the checksum is its rune encoding `encStr`. -/

def hexDig (n : Nat) : Char := "0123456789abcdef".toList.getD n '0'

/-- Go `encoding/json` string escaping (with the default HTML escaping of
`<`, `>`, `&`). -/
def escChar (c : Char) : Str :=
  if c = '"' then ['\\', '"']
  else if c = '\\' then ['\\', '\\']
  else if c = '\n' then ['\\', 'n']
  else if c = '\r' then ['\\', 'r']
  else if c = '\t' then ['\\', 't']
  else if c = '<' then "\\u003c".toList
  else if c = '>' then "\\u003e".toList
  else if c = '&' then "\\u0026".toList
  else if c.toNat < 32 then
    "\\u00".toList ++ [hexDig (c.toNat / 16), hexDig (c.toNat % 16)]
  else [c]

def escStr : Str → Str
  | [] => []
  | c :: rest => escChar c ++ escStr rest

/-- A JSON string literal. -/
def qstr (s : Str) : Str := '"' :: escStr s ++ ['"']

/-- Indentation of nesting depth `d` (indent string `"  "`). -/
def ind (d : Nat) : Str := List.replicate (2 * d) ' '

/-- Quoted decimal rendering of an abstract instant (stand-in for the RFC3339
text `time.Time` marshals to). -/
def timeStr (t : Nat) : Str := qstr (Nat.toDigits 10 t)

def joinSep (sep : Str) : List Str → Str
  | [] => []
  | [x] => x
  | x :: y :: rest => x ++ sep ++ joinSep sep (y :: rest)

/-- One `"key": value` line at depth `d`. -/
def fieldS (d : Nat) (key : Str) (v : Str) : Str :=
  ind d ++ qstr key ++ [':', ' '] ++ v

/-- An indented JSON object from its already-rendered field lines. -/
def renderObj (d : Nat) (fields : List Str) : Str :=
  ['\x7b', '\n'] ++ joinSep [',', '\n'] fields ++ ['\n'] ++ ind d ++ ['\x7d']

/-- An indented JSON array from its already-rendered elements. -/
def renderArr (d : Nat) (items : List Str) : Str :=
  if items = [] then ['[', ']']
  else ['[', '\n'] ++ joinSep [',', '\n'] (items.map (fun s => ind (d + 1) ++ s)) ++
       ['\n'] ++ ind d ++ [']']

/-- `json.MarshalIndent` of an `Entry` nested at depth `d` (struct-tag order,
`omitempty` on `url`, `notes`, `tags`). -/
def renderEntry (d : Nat) (e : Entry) : Str :=
  renderObj d (
    [fieldS (d + 1) "id".toList (qstr e.id),
     fieldS (d + 1) "name".toList (qstr e.name),
     fieldS (d + 1) "username".toList (qstr e.username),
     fieldS (d + 1) "password".toList (qstr e.password)] ++
    (if e.url = [] then [] else [fieldS (d + 1) "url".toList (qstr e.url)]) ++
    (if e.notes = [] then [] else [fieldS (d + 1) "notes".toList (qstr e.notes)]) ++
    [fieldS (d + 1) "created_at".toList (timeStr e.createdAt),
     fieldS (d + 1) "updated_at".toList (timeStr e.updatedAt)] ++
    (if e.tags = [] then []
     else [fieldS (d + 1) "tags".toList (renderArr (d + 1) (e.tags.map qstr))]))

/-- `json.MarshalIndent(vault, "", "  ")` (struct-tag order, `omitempty` on
`metadata`; Go sorts map keys, and the model keeps the association list in
order — every vault this system builds has empty metadata). -/
def renderVault (v : Vault) : Str :=
  renderObj 0 (
    [fieldS 1 "version".toList (qstr v.version),
     fieldS 1 "salt".toList (qstr v.salt),
     fieldS 1 "checksum".toList (qstr v.checksum),
     fieldS 1 "entries".toList (renderArr 1 (v.entries.map (renderEntry 2))),
     fieldS 1 "created_at".toList (timeStr v.createdAt),
     fieldS 1 "updated_at".toList (timeStr v.updatedAt)] ++
    (if v.metadata = [] then []
     else [fieldS 1 "metadata".toList
             (renderObj 1 (v.metadata.map
               (fun kv => fieldS 2 kv.1 (qstr kv.2))))]))

/-! ## JSON parsing (model of `json.Unmarshal` into `types.Vault`) -/

inductive JVal where
  | str (s : Str)
  | num (n : Nat)
  | arr (l : List JVal)
  | obj (l : List (Str × JVal))

def isWs (c : Char) : Bool := c = ' ' || c = '\n' || c = '\t' || c = '\r'

def skipWs : Str → Str
  | [] => []
  | c :: rest => if isWs c then skipWs rest else c :: rest

def hexVal (c : Char) : Option Nat :=
  if '0' ≤ c ∧ c ≤ '9' then some (c.toNat - 48)
  else if 'a' ≤ c ∧ c ≤ 'f' then some (c.toNat - 87)
  else if 'A' ≤ c ∧ c ≤ 'F' then some (c.toNat - 55)
  else none

/-- Body of a JSON string after the opening quote, handling the escapes the
system emits. -/
def parseStringBody : Str → Option (Str × Str)
  | [] => none
  | '"' :: rest => some ([], rest)
  | '\\' :: 'u' :: h1 :: h2 :: h3 :: h4 :: rest =>
      match hexVal h1, hexVal h2, hexVal h3, hexVal h4, parseStringBody rest with
      | some a, some b, some c, some d, some (s, r) =>
          some (Char.ofNat (((a * 16 + b) * 16 + c) * 16 + d) :: s, r)
      | _, _, _, _, _ => none
  | '\\' :: e :: rest =>
      match (if e = '"' then some '"'
             else if e = '\\' then some '\\'
             else if e = '/' then some '/'
             else if e = 'n' then some '\n'
             else if e = 'r' then some '\r'
             else if e = 't' then some '\t'
             else none) with
      | some c =>
          match parseStringBody rest with
          | some (s, r) => some (c :: s, r)
          | none => none
      | none => none
  | c :: rest =>
      match parseStringBody rest with
      | some (s, r) => some (c :: s, r)
      | none => none

def natOfDigits (ds : Str) : Nat := ds.foldl (fun a c => a * 10 + (c.toNat - 48)) 0

mutual

/-- Parse one JSON value (strings, numbers, arrays, objects — the grammar
this system writes; fuel keeps the recursion structural). -/
def parseJ : Nat → Str → Option (JVal × Str)
  | 0, _ => none
  | fuel + 1, s =>
    match skipWs s with
    | '"' :: rest =>
        match parseStringBody rest with
        | some (str, r) => some (.str str, r)
        | none => none
    | '[' :: rest =>
        match skipWs rest with
        | ']' :: r2 => some (.arr [], r2)
        | s2 =>
            match parseElems fuel s2 with
            | some (vs, r2) => some (.arr vs, r2)
            | none => none
    | '\x7b' :: rest =>
        match skipWs rest with
        | '\x7d' :: r2 => some (.obj [], r2)
        | s2 =>
            match parseFields fuel s2 with
            | some (fs, r2) => some (.obj fs, r2)
            | none => none
    | c :: rest =>
        if c.isDigit then
          some (.num (natOfDigits ((c :: rest).takeWhile Char.isDigit)),
                (c :: rest).dropWhile Char.isDigit)
        else none
    | [] => none

def parseElems : Nat → Str → Option (List JVal × Str)
  | 0, _ => none
  | fuel + 1, s =>
    match parseJ fuel s with
    | some (v, rest) =>
        match skipWs rest with
        | ',' :: r2 =>
            match parseElems fuel r2 with
            | some (vs, r3) => some (v :: vs, r3)
            | none => none
        | ']' :: r2 => some ([v], r2)
        | _ => none
    | none => none

def parseFields : Nat → Str → Option (List (Str × JVal) × Str)
  | 0, _ => none
  | fuel + 1, s =>
    match skipWs s with
    | '"' :: rest =>
        match parseStringBody rest with
        | some (key, r1) =>
            match skipWs r1 with
            | ':' :: r2 =>
                match parseJ fuel r2 with
                | some (v, r3) =>
                    match skipWs r3 with
                    | ',' :: r4 =>
                        match parseFields fuel r4 with
                        | some (fs, r5) => some ((key, v) :: fs, r5)
                        | none => none
                    | '\x7d' :: r4 => some ([(key, v)], r4)
                    | _ => none
                | none => none
            | _ => none
        | none => none
    | _ => none

end

/-- Parse a complete JSON document (no trailing garbage). -/
def parseJson (s : Str) : Option JVal :=
  match parseJ (s.length + 1) s with
  | some (v, rest) => if skipWs rest = [] then some v else none
  | none => none

def jGet : List (Str × JVal) → Str → Option JVal
  | [], _ => none
  | (k, v) :: rest, key => if k = key then some v else jGet rest key

/-- A string struct field: absent keys take Go's zero value, non-string
values make `Unmarshal` fail. -/
def jStrField (l : List (Str × JVal)) (key : Str) : Option Str :=
  match jGet l key with
  | none => some []
  | some (.str s) => some s
  | some _ => none

/-- A `time.Time` struct field (quoted decimal instant in the model). -/
def jTimeField (l : List (Str × JVal)) (key : Str) : Option Nat :=
  match jGet l key with
  | none => some 0
  | some (.str ds) =>
      if ds ≠ [] ∧ ds.all Char.isDigit then some (natOfDigits ds) else none
  | some _ => none

def jStrList : List JVal → Option (List Str)
  | [] => some []
  | .str s :: rest =>
      match jStrList rest with
      | some l => some (s :: l)
      | none => none
  | _ :: _ => none

/-- `[]string` field (`tags`). -/
def jTagsField (l : List (Str × JVal)) : Option (List Str) :=
  match jGet l "tags".toList with
  | none => some []
  | some (.arr items) => jStrList items
  | some _ => none

def jStrPairs : List (Str × JVal) → Option (List (Str × Str))
  | [] => some []
  | (k, .str s) :: rest =>
      match jStrPairs rest with
      | some l => some ((k, s) :: l)
      | none => none
  | _ :: _ => none

/-- `map[string]string` field (`metadata`). -/
def jMetaField (l : List (Str × JVal)) : Option (List (Str × Str)) :=
  match jGet l "metadata".toList with
  | none => some []
  | some (.obj fs) => jStrPairs fs
  | some _ => none

def entryFromJson : JVal → Option Entry
  | .obj l => do
      let id ← jStrField l "id".toList
      let name ← jStrField l "name".toList
      let username ← jStrField l "username".toList
      let password ← jStrField l "password".toList
      let url ← jStrField l "url".toList
      let notes ← jStrField l "notes".toList
      let createdAt ← jTimeField l "created_at".toList
      let updatedAt ← jTimeField l "updated_at".toList
      let tags ← jTagsField l
      some ⟨id, name, username, password, url, notes, createdAt, updatedAt, tags⟩
  | _ => none

def entriesFromJson : List JVal → Option (List Entry)
  | [] => some []
  | v :: rest =>
      match entryFromJson v, entriesFromJson rest with
      | some e, some es => some (e :: es)
      | _, _ => none

/-- `[]*types.Entry` field. -/
def jEntriesField (l : List (Str × JVal)) : Option (List Entry) :=
  match jGet l "entries".toList with
  | none => some []
  | some (.arr items) => entriesFromJson items
  | some _ => none

/-- `json.Unmarshal(data, &vault)`: `none` is the error case
(`ErrVaultCorrupted` at the call sites). -/
def parseVault (s : Str) : Option Vault :=
  match parseJson s with
  | some (.obj l) => do
      let version ← jStrField l "version".toList
      let salt ← jStrField l "salt".toList
      let checksum ← jStrField l "checksum".toList
      let entries ← jEntriesField l
      let createdAt ← jTimeField l "created_at".toList
      let updatedAt ← jTimeField l "updated_at".toList
      let metadata ← jMetaField l
      some ⟨version, salt, checksum, entries, createdAt, updatedAt, metadata⟩
  | _ => none

/-! ## `internal/storage/local.go` : atomic local write

A tiny filesystem (path ↦ text content) makes the
write-to-temporary-then-rename sequence of `LocalStorage.Write` explicit. -/

abbrev FS := List (Str × Str)

def fsGet : FS → Str → Option Str
  | [], _ => none
  | (q, e) :: rest, p => if q = p then some e else fsGet rest p

def fsSet : FS → Str → Str → FS
  | [], p, d => [(p, d)]
  | (q, e) :: rest, p, d => if q = p then (p, d) :: rest else (q, e) :: fsSet rest p d

def fsRemove : FS → Str → FS
  | [], _ => []
  | (q, e) :: rest, p => if q = p then rest else (q, e) :: fsRemove rest p

def fsRename (fs : FS) (src dst : Str) : FS :=
  match fsGet fs src with
  | some d => fsSet (fsRemove fs src) dst d
  | none => fs

/-- `LocalStorage` bound to one path. -/
structure LocalStorage where
  path : Str
deriving DecidableEq, Repr

def tmpSuffix : Str := ".tmp".toList

/-- First step of `LocalStorage.Write`: `os.WriteFile(path + ".tmp", data)`. -/
def LocalStorage.writeTmp (s : LocalStorage) (data : Str) (fs : FS) : FS :=
  fsSet fs (s.path ++ tmpSuffix) data

/-- Second step: `os.Rename(path + ".tmp", path)`. -/
def LocalStorage.Write (s : LocalStorage) (data : Str) (fs : FS) : FS :=
  fsRename (s.writeTmp data fs) (s.path ++ tmpSuffix) s.path

/-! ## `internal/vault/vault.go` : Manager

Mutating methods return `Option Err × Manager` (the Go receiver state after
the call together with the returned error); read-only methods return
`Except Err α`.  The bound storage is the `store` field (`none` = the
backing file does not exist); `Write` on this abstract store always
succeeds, `Read` of an absent store fails `storageNotFound` (the local
backend's `ErrStorageNotFound`, surfaced unchanged by `Open`).

Go's nil `crypto`/`vault` pointers while Closed are modelled by dummy
values; every access to them in the source is guarded by `open`, so the
dummies are unobservable. -/

def dummyCrypto : Crypto := ⟨([], [])⟩

def emptyVault : Vault := NewVault 0

structure Manager where
  store : Option Str
  crypto : Crypto
  vault : Vault
  salt : Bytes
  opn : Bool
deriving DecidableEq, Repr

/-- `vault.NewManager`. -/
def NewManager (store : Option Str) : Manager :=
  ⟨store, dummyCrypto, emptyVault, [], false⟩

/-- `Manager.save`: stamp `updatedAt`, blank the checksum, serialize, compute
the checksum over those bytes, re-serialize with the checksum and write.
(`MarshalIndent` of these structs cannot fail; the abstract store's `Write`
always succeeds.) -/
def Manager.save (m : Manager) (t : Nat) : Option Err × Manager :=
  if m.opn = false then (some .vaultNotOpen, m)
  else
    let v1 := { m.vault with updatedAt := t }
    let s1 := renderVault { v1 with checksum := [] }
    let v2 := { v1 with checksum := ComputeChecksum (encStr s1) }
    let s2 := renderVault v2
    (none, { m with vault := v2, store := some s2 })

/-- `Manager.Init` with the generated random salt and the clock instant as
explicit inputs. -/
def Manager.Init (m : Manager) (masterPassword : Str) (saltR : Bytes) (t : Nat) :
    Option Err × Manager :=
  if m.store.isSome then (some .vaultExists, m)
  else
    let m1 := { m with
      salt := saltR
      crypto := NewCrypto masterPassword saltR
      vault := { NewVault t with salt := b64Encode saltR }
      opn := true }
    m1.save t

/-- `Manager.Open`. -/
def Manager.Open (m : Manager) (masterPassword : Str) : Option Err × Manager :=
  if m.opn then (some .vaultAlreadyOpen, m)
  else
    match m.store with
    | none => (some .storageNotFound, m)
    | some data =>
        match parseVault data with
        | none => (some .vaultCorrupted, m)
        | some vault =>
            match b64Decode vault.salt with
            | none => (some .vaultCorrupted, m)
            | some salt =>
                (none, { m with
                  salt := salt
                  crypto := NewCrypto masterPassword salt
                  vault := vault
                  opn := true })

/-- `Manager.Close`: zero the key, drop the vault, return to Closed. -/
def Manager.Close (m : Manager) : Manager :=
  { m with crypto := dummyCrypto, vault := emptyVault, salt := [], opn := false }

/-- `Manager.findEntryByName`: first entry with an exact name match. -/
def Manager.findEntryByName (m : Manager) (name : Str) : Option Entry :=
  m.vault.entries.find? (fun e => e.name = name)

/-- `Manager.findEntryIndexByName` (`none` for Go's `-1`). -/
def Manager.findEntryIndexByName (m : Manager) (name : Str) : Option Nat :=
  m.vault.entries.findIdx? (fun e => e.name = name)

/-- `Manager.AddEntry` with the random UUID, the two encryption nonces and
the clock instant as explicit inputs (`nNotes` is unused when `notes` is
empty, exactly as the Go code draws no nonce then). -/
def Manager.AddEntry (m : Manager) (name username password url notes : Str)
    (tags : List Str) (id : Str) (nPw nNotes : Bytes) (t : Nat) :
    Except Err Entry × Manager :=
  if m.opn = false then (.error .vaultNotOpen, m)
  else if (m.findEntryByName name).isSome then (.error .entryExists, m)
  else
    let e0 := NewEntry id name t
    let e1 := { e0 with
      username := username
      password := m.crypto.EncryptString nPw password
      url := url }
    let e2 :=
      if notes ≠ [] then { e1 with notes := m.crypto.EncryptString nNotes notes }
      else e1
    let e3 := { e2 with tags := tags }
    let m1 := { m with vault := { m.vault with entries := m.vault.entries ++ [e3] } }
    match m1.save t with
    | (none, m2) => (.ok e3, m2)
    | (some e, m2) => (.error e, m2)

/-- `Manager.GetEntry` (read-only; ciphertext fields untouched). -/
def Manager.GetEntry (m : Manager) (name : Str) : Except Err Entry :=
  if m.opn = false then .error .vaultNotOpen
  else
    match m.findEntryByName name with
    | none => .error .entryNotFound
    | some e => .ok e

/-- `Manager.GetDecryptedPassword`. -/
def Manager.GetDecryptedPassword (m : Manager) (name : Str) : Except Err Str :=
  if m.opn = false then .error .vaultNotOpen
  else
    match m.findEntryByName name with
    | none => .error .entryNotFound
    | some e => m.crypto.DecryptString e.password

/-- `Manager.GetDecryptedNotes`: empty stored notes short-circuit to `""`
without a decryption attempt. -/
def Manager.GetDecryptedNotes (m : Manager) (name : Str) : Except Err Str :=
  if m.opn = false then .error .vaultNotOpen
  else
    match m.findEntryByName name with
    | none => .error .entryNotFound
    | some e => if e.notes = [] then .ok [] else m.crypto.DecryptString e.notes

/-- `Manager.ListEntries`. -/
def Manager.ListEntries (m : Manager) : Except Err (List Entry) :=
  if m.opn = false then .error .vaultNotOpen else .ok m.vault.entries

/-- The sparse `updates` map of `Manager.UpdateEntry`: only present keys are
applied. -/
structure Updates where
  username : Option Str
  password : Option Str
  url : Option Str
  notes : Option Str
deriving DecidableEq, Repr

/-- Apply the sparse updates to one entry the way `UpdateEntry` does
(fresh nonce for a new password; empty notes clear to plain empty). -/
def applyUpdates (c : Crypto) (e : Entry) (u : Updates) (nPw nNotes : Bytes)
    (t : Nat) : Entry :=
  let e1 := match u.username with
    | some username => { e with username := username }
    | none => e
  let e2 := match u.password with
    | some password => { e1 with password := c.EncryptString nPw password }
    | none => e1
  let e3 := match u.url with
    | some url => { e2 with url := url }
    | none => e2
  let e4 := match u.notes with
    | some notes =>
        if notes = [] then { e3 with notes := [] }
        else { e3 with notes := c.EncryptString nNotes notes }
    | none => e3
  { e4 with updatedAt := t }

/-- `Manager.UpdateEntry`. -/
def Manager.UpdateEntry (m : Manager) (name : Str) (u : Updates)
    (nPw nNotes : Bytes) (t : Nat) : Except Err Entry × Manager :=
  if m.opn = false then (.error .vaultNotOpen, m)
  else
    match m.findEntryIndexByName name with
    | none => (.error .entryNotFound, m)
    | some i =>
        match m.vault.entries.get? i with
        | none => (.error .entryNotFound, m)
        | some e =>
            let e5 := applyUpdates m.crypto e u nPw nNotes t
            let m1 := { m with
              vault := { m.vault with entries := m.vault.entries.set i e5 } }
            match m1.save t with
            | (none, m2) => (.ok e5, m2)
            | (some err, m2) => (.error err, m2)

/-- `Manager.DeleteEntry`. -/
def Manager.DeleteEntry (m : Manager) (name : Str) (t : Nat) :
    Option Err × Manager :=
  if m.opn = false then (some .vaultNotOpen, m)
  else
    match m.findEntryIndexByName name with
    | none => (some .entryNotFound, m)
    | some i =>
        let m1 := { m with
          vault := { m.vault with entries := m.vault.entries.eraseIdx i } }
        m1.save t

/-- `strings.ToLower` (ASCII case folding suffices for the model). -/
def lowerStr (s : Str) : Str := s.map Char.toLower

def startsWithL : Str → Str → Bool
  | _, [] => true
  | [], _ :: _ => false
  | c :: s, d :: t => c = d && startsWithL s t

/-- `strings.Contains`. -/
def containsSub : Str → Str → Bool
  | [], sub => startsWithL [] sub
  | c :: s2, sub => startsWithL (c :: s2) sub || containsSub s2 sub

/-- The name/username/url part of the `SearchEntries` match. -/
def entryMatchMain (q : Str) (e : Entry) : Bool :=
  containsSub (lowerStr e.name) q || containsSub (lowerStr e.username) q ||
  containsSub (lowerStr e.url) q

/-- The tag part of the `SearchEntries` match. -/
def entryMatchTags (q : Str) (e : Entry) : Bool :=
  e.tags.any (fun tag => containsSub (lowerStr tag) q)

/-- The `SearchEntries` loop: `seen` is the set of already-collected ids. -/
def searchLoop (q : Str) : List Entry → List Str → List Entry
  | [], _ => []
  | e :: rest, seen =>
      if e.id ∈ seen then searchLoop q rest seen
      else if entryMatchMain q e then e :: searchLoop q rest (e.id :: seen)
      else if entryMatchTags q e then e :: searchLoop q rest (e.id :: seen)
      else searchLoop q rest seen

/-- `Manager.SearchEntries`. -/
def Manager.SearchEntries (m : Manager) (query : Str) : Except Err (List Entry) :=
  if m.opn = false then .error .vaultNotOpen
  else .ok (searchLoop (lowerStr query) m.vault.entries [])

/-- `Manager.IsOpen`. -/
def Manager.IsOpen (m : Manager) : Bool := m.opn

/-- `Manager.Sync`: marshal the in-memory vault as-is and write it to the
remote store; the manager itself is not touched.  Returns the remote blob
after the write. -/
def Manager.Sync (m : Manager) (_remote : Option Str) : Except Err (Option Str) :=
  if m.opn = false then .error .vaultNotOpen
  else .ok (some (renderVault m.vault))

/-- `Manager.Pull`: read and parse the remote vault, decode its salt, then —
only after all three checks pass — close any open vault and replace the
local state.  Note the local `store` is not written. -/
def Manager.Pull (m : Manager) (remote : Option Str) (masterPassword : Str) :
    Option Err × Manager :=
  match remote with
  | none => (some .storageNotFound, m)
  | some data =>
      match parseVault data with
      | none => (some .vaultCorrupted, m)
      | some vault =>
          match b64Decode vault.salt with
          | none => (some .vaultCorrupted, m)
          | some salt =>
              let m1 := if m.opn then m.Close else m
              (none, { m1 with
                salt := salt
                crypto := NewCrypto masterPassword salt
                vault := vault
                opn := true })

/-! ## Supporting lemmas for the crypto layer -/

theorem bytesOk_append {a b : Bytes} (ha : BytesOk a) (hb : BytesOk b) :
    BytesOk (a ++ b) := by
  intro x hx
  rcases List.mem_append.1 hx with h | h
  · exact ha x h
  · exact hb x h

theorem bytesOk_lenBytes8 (n : Nat) : BytesOk (lenBytes8 n) := by
  intro x hx
  simp [lenBytes8] at hx
  rcases hx with rfl | rfl | rfl | rfl | rfl | rfl | rfl | rfl <;> omega

theorem bytesOk_encChar (c : Char) : BytesOk (encChar c) := by
  have h := char_toNat_lt c
  intro x hx
  simp [encChar] at hx
  rcases hx with rfl | rfl | rfl <;> omega

theorem bytesOk_encStr (s : Str) : BytesOk (encStr s) := by
  induction s with
  | nil => intro x hx; simp [encStr] at hx
  | cons c rest ih => exact bytesOk_append (bytesOk_encChar c) ih

theorem bytesOk_gcmSeal {k : Key} {nonce pt : Bytes} (hsalt : BytesOk k.2)
    (hnonce : BytesOk nonce) (hpt : BytesOk pt) :
    BytesOk (gcmSeal k nonce pt) := by
  intro x hx
  simp only [gcmSeal, encKey, List.append_assoc, List.mem_append] at hx
  rcases hx with h | h | h | h | h | h | h <;>
    first
      | exact bytesOk_lenBytes8 _ x h
      | exact bytesOk_encStr _ x h
      | exact hsalt x h
      | exact hnonce x h
      | exact hpt x h

/-- Opening a sealed blob under any key other than the sealing key fails
(ideal authenticity). -/
theorem gcmOpen_gcmSeal_wrong (k k' : Key) (nonce pt : Bytes) (hk : KeyOk k)
    (hn : nonce.length < 18446744073709551616) (hne : k ≠ k') :
    gcmOpen k' nonce (gcmSeal k nonce pt) = none := by
  have hs : (encStr k.1).length < 18446744073709551616 := by
    unfold KeyOk at hk; omega
  have hek : (encKey k).length < 18446744073709551616 := by
    simp [encKey, lenBytes8]
    unfold KeyOk at hk; omega
  unfold gcmSeal gcmOpen
  simp only [List.append_assoc]
  rw [natOf8_lenBytes8 _ hek]
  dsimp only
  have h1 : ¬ ((encKey k ++ (lenBytes8 nonce.length ++ (nonce ++ pt))).length <
      (encKey k).length) := by simp
  rw [dif_neg h1, List.take_left, List.drop_left]
  have hdk : decKey (encKey k) = some k := by
    unfold decKey encKey
    simp only [List.append_assoc]
    rw [natOf8_lenBytes8 _ hs]
    dsimp only
    have h2 : ¬ ((encStr k.1 ++ k.2).length < (encStr k.1).length) := by simp
    rw [if_neg h2, List.take_left, List.drop_left, strOfBytes_encStr]
  rw [hdk, natOf8_lenBytes8 _ hn]
  dsimp only
  have h3 : ¬ ((nonce ++ pt).length < nonce.length) := by simp
  rw [if_neg h3]
  simp only [List.take_left]
  simp [hne]

/-- C2 (claim): decrypting the encryption of any plaintext under the key
derived from the same password and salt returns exactly that plaintext. -/
theorem C2_decrypt_encrypt_roundtrip (password : Str) (salt : Bytes)
    (plaintext : Bytes) (nonce : Bytes)
    (hsalt : BytesOk salt) (hpt : BytesOk plaintext) (hnonce : BytesOk nonce)
    (hlen : nonce.length = nonceLength)
    (hk : KeyOk (deriveKey password salt)) :
    (NewCrypto password salt).Decrypt
      ((NewCrypto password salt).Encrypt nonce plaintext) = .ok plaintext := by
  unfold NewCrypto Crypto.Encrypt Crypto.Decrypt
  have hok : BytesOk (nonce ++ gcmSeal (deriveKey password salt) nonce plaintext) :=
    bytesOk_append hnonce (bytesOk_gcmSeal hsalt hnonce hpt)
  rw [b64_decode_encode _ hok]
  dsimp only
  have hge : ¬ ((nonce ++ gcmSeal (deriveKey password salt) nonce plaintext).length <
      nonceLength) := by
    simp [List.length_append]
    omega
  rw [if_neg hge]
  have ht : (nonce ++ gcmSeal (deriveKey password salt) nonce plaintext).take
      nonceLength = nonce := by
    rw [← hlen, List.take_left]
  have hd : (nonce ++ gcmSeal (deriveKey password salt) nonce plaintext).drop
      nonceLength = gcmSeal (deriveKey password salt) nonce plaintext := by
    rw [← hlen, List.drop_left]
  rw [ht, hd, gcmOpen_gcmSeal _ _ _ hk (by rw [hlen]; decide)]

/-- C2 witness at a concrete password, salt, nonce and plaintext. -/
theorem C2_witness :
    (NewCrypto "pw".toList [1, 2, 3, 4]).Decrypt
      ((NewCrypto "pw".toList [1, 2, 3, 4]).Encrypt
        [0, 1, 2, 3, 4, 5, 6, 7, 8, 9, 10, 11] [104, 105]) = .ok [104, 105] :=
  C2_decrypt_encrypt_roundtrip "pw".toList [1, 2, 3, 4] [104, 105]
    [0, 1, 2, 3, 4, 5, 6, 7, 8, 9, 10, 11]
    (by decide) (by decide) (by decide) (by decide) (by decide)

/-- C3 (counterexample): the empty blob is valid base64 and decodes to zero
bytes, which is shorter than the nonce; `Decrypt` then fails with
`invalidNonceLength`, not the `invalidCiphertext` the claim names for the
too-short case. -/
theorem C3_counterexample :
    (Crypto.mk (deriveKey "k".toList [])).Decrypt [] =
      .error .invalidNonceLength ∧
    b64Decode [] = some [] ∧
    Err.invalidNonceLength ≠ Err.invalidCiphertext := by
  refine ⟨rfl, rfl, by decide⟩

/-- C3 (amended): non-base64 input fails `invalidCiphertext`; well-formed
base64 decoding to fewer than 12 bytes fails `invalidNonceLength` (a format
error distinct from `invalidCiphertext`), both before any AEAD attempt; a
failed authenticated open yields `decryptionFailed`, distinct from both
format errors. -/
theorem C3_decrypt_error_taxonomy (c : Crypto) (blob : Str) :
    (b64Decode blob = none → c.Decrypt blob = .error .invalidCiphertext) ∧
    (∀ ct, b64Decode blob = some ct → ct.length < nonceLength →
      c.Decrypt blob = .error .invalidNonceLength) ∧
    (∀ ct, b64Decode blob = some ct → ¬ ct.length < nonceLength →
      gcmOpen c.key (ct.take nonceLength) (ct.drop nonceLength) = none →
      c.Decrypt blob = .error .decryptionFailed) ∧
    Err.invalidCiphertext ≠ Err.decryptionFailed ∧
    Err.invalidNonceLength ≠ Err.decryptionFailed ∧
    Err.invalidNonceLength ≠ Err.invalidCiphertext := by
  refine ⟨?_, ?_, ?_, by decide, by decide, by decide⟩
  · intro h; unfold Crypto.Decrypt; rw [h]
  · intro ct h hlt; unfold Crypto.Decrypt; rw [h]; simp [hlt]
  · intro ct h hlt hop; unfold Crypto.Decrypt; rw [h]; simp [hlt, hop]

/-- C3 witness: concrete blobs hitting each of the three error branches. -/
theorem C3_witness :
    (Crypto.mk (deriveKey "k".toList [])).Decrypt "!!!!".toList =
      .error .invalidCiphertext ∧
    (Crypto.mk (deriveKey "k".toList [])).Decrypt "QUJD".toList =
      .error .invalidNonceLength ∧
    (Crypto.mk (deriveKey "k".toList [])).Decrypt
      (b64Encode [0, 0, 0, 0, 0, 0, 0, 0, 0, 0, 0, 0]) =
      .error .decryptionFailed :=
  ⟨(C3_decrypt_error_taxonomy _ _).1 (by decide),
   (C3_decrypt_error_taxonomy _ _).2.1 [65, 66, 67] (by decide) (by decide),
   (C3_decrypt_error_taxonomy _ _).2.2.1 [0, 0, 0, 0, 0, 0, 0, 0, 0, 0, 0, 0]
     (by decide) (by decide) (by decide)⟩

/-- Decrypting a string sealed under the key derived from one password with
the key derived from a different password (same salt) fails
`decryptionFailed`. -/
theorem decryptString_wrongKey (pwEnc pwDec : Str) (salt nonce : Bytes)
    (pt : Str) (hsalt : BytesOk salt) (hnonce : BytesOk nonce)
    (hlen : nonce.length = nonceLength) (hk : KeyOk (deriveKey pwEnc salt))
    (hne : pwEnc ≠ pwDec) :
    (Crypto.mk (deriveKey pwDec salt)).DecryptString
      ((Crypto.mk (deriveKey pwEnc salt)).EncryptString nonce pt) =
      .error .decryptionFailed := by
  unfold Crypto.DecryptString Crypto.EncryptString Crypto.Encrypt Crypto.Decrypt
  have hok : BytesOk (nonce ++ gcmSeal (deriveKey pwEnc salt) nonce (encStr pt)) :=
    bytesOk_append hnonce (bytesOk_gcmSeal hsalt hnonce (bytesOk_encStr pt))
  rw [b64_decode_encode _ hok]
  dsimp only
  have hge : ¬ ((nonce ++ gcmSeal (deriveKey pwEnc salt) nonce (encStr pt)).length <
      nonceLength) := by
    simp [List.length_append]
    omega
  rw [if_neg hge]
  have ht : (nonce ++ gcmSeal (deriveKey pwEnc salt) nonce (encStr pt)).take
      nonceLength = nonce := by
    rw [← hlen, List.take_left]
  have hd : (nonce ++ gcmSeal (deriveKey pwEnc salt) nonce (encStr pt)).drop
      nonceLength = gcmSeal (deriveKey pwEnc salt) nonce (encStr pt) := by
    rw [← hlen, List.drop_left]
  have hkeys : deriveKey pwEnc salt ≠ deriveKey pwDec salt := by
    intro h
    exact hne (congrArg Prod.fst h)
  rw [ht, hd, gcmOpen_gcmSeal_wrong _ _ _ _ hk (by rw [hlen]; decide) hkeys]

/-- C1 (claim): on a Closed manager whose backing store holds a well-formed
serialized vault, `Open` succeeds for every master password — no correctness
check is performed on the derived key — and with a wrong password the error
surfaces only at the first decryption: `GetDecryptedPassword` fails with
`decryptionFailed` for any entry whose password was sealed under the key
derived from the original password. -/
theorem C1_open_no_password_check (m : Manager) (data : Str) (v : Vault)
    (pw : Str) (salt : Bytes)
    (hclosed : m.opn = false)
    (hstore : m.store = some data)
    (hparse : parseVault data = some v)
    (hsalt : b64Decode v.salt = some salt) :
    (m.Open pw).1 = none ∧
    (m.Open pw).2.opn = true ∧
    (m.Open pw).2.vault = v ∧
    (m.Open pw).2.crypto = NewCrypto pw salt ∧
    (∀ name e pw₀ nonce pt,
      (m.Open pw).2.findEntryByName name = some e →
      e.password = (Crypto.mk (deriveKey pw₀ salt)).EncryptString nonce pt →
      BytesOk salt → BytesOk nonce → nonce.length = nonceLength →
      KeyOk (deriveKey pw₀ salt) → pw₀ ≠ pw →
      (m.Open pw).2.GetDecryptedPassword name = .error .decryptionFailed) := by
  have hopen : m.Open pw =
      (none, { m with
        salt := salt
        crypto := NewCrypto pw salt
        vault := v
        opn := true }) := by
    unfold Manager.Open
    rw [hclosed, hstore]
    dsimp only
    rw [hparse]
    dsimp only
    rw [hsalt]
    simp
  refine ⟨by rw [hopen], by rw [hopen], by rw [hopen], by rw [hopen], ?_⟩
  intro name e pw₀ nonce pt hfind hpw hbs hbn hlen hk hne
  rw [hopen] at hfind ⊢
  unfold Manager.GetDecryptedPassword
  dsimp only
  rw [hfind]
  dsimp only
  rw [hpw]
  exact decryptString_wrongKey pw₀ pw salt nonce pt hbs hbn hlen hk hne

def c1Salt : Bytes := [1, 2, 3, 4]

def c1Nonce : Bytes := [0, 1, 2, 3, 4, 5, 6, 7, 8, 9, 10, 11]

def c1Cipher : Str :=
  (Crypto.mk (deriveKey "right".toList c1Salt)).EncryptString c1Nonce
    "s3cr3t".toList

def c1Entry : Entry :=
  { id := "id-1".toList, name := "github".toList, username := "alice".toList,
    password := c1Cipher, url := [], notes := [], createdAt := 1,
    updatedAt := 1, tags := [] }

def c1Vault : Vault :=
  { version := "1.0".toList, salt := b64Encode c1Salt, checksum := [],
    entries := [c1Entry], createdAt := 1, updatedAt := 1, metadata := [] }

def c1Mgr : Manager := NewManager (some (renderVault c1Vault))

set_option maxRecDepth 100000 in
/-- C1 witness: opening a stored vault with the wrong master password
succeeds, and the first `GetDecryptedPassword` fails `decryptionFailed`. -/
theorem C1_witness :
    ((c1Mgr.Open "wrong".toList).1 = none) ∧
    ((c1Mgr.Open "wrong".toList).2.GetDecryptedPassword "github".toList =
      .error .decryptionFailed) :=
  ⟨(C1_open_no_password_check c1Mgr (renderVault c1Vault) c1Vault
      "wrong".toList c1Salt rfl rfl (by decide) (by decide)).1,
   (C1_open_no_password_check c1Mgr (renderVault c1Vault) c1Vault
      "wrong".toList c1Salt rfl rfl (by decide) (by decide)).2.2.2.2
     "github".toList c1Entry "right".toList c1Nonce "s3cr3t".toList
     (by decide) rfl (by decide) (by decide) (by decide) (by decide) (by decide)⟩

/-- C10 (claim): whenever `Pull` returns an error — remote read failure,
unparseable remote bytes, or an undecodable embedded salt — the manager's
state is exactly what it was before the call (open flag, vault, key
material and salt all unchanged; `Close` is never reached, since the only
state change happens after all three checks pass). -/
theorem C10_pull_error_leaves_state (m : Manager) (remote : Option Str)
    (pw : Str) :
    ((m.Pull remote pw).1.isSome → (m.Pull remote pw).2 = m) ∧
    (remote = none → m.Pull remote pw = (some .storageNotFound, m)) ∧
    (∀ d, remote = some d → parseVault d = none →
      m.Pull remote pw = (some .vaultCorrupted, m)) ∧
    (∀ d v, remote = some d → parseVault d = some v → b64Decode v.salt = none →
      m.Pull remote pw = (some .vaultCorrupted, m)) := by
  refine ⟨?_, ?_, ?_, ?_⟩
  · intro hsome
    unfold Manager.Pull at hsome ⊢
    rcases remote with _ | d
    · rfl
    · dsimp only at hsome ⊢
      rcases hp : parseVault d with _ | v
      · rfl
      · rw [hp] at hsome
        dsimp only at hsome ⊢
        rcases hs : b64Decode v.salt with _ | s
        · rfl
        · rw [hs] at hsome
          exact Bool.noConfusion hsome
  · intro h
    rw [h]
    rfl
  · intro d hd hp
    rw [hd]
    unfold Manager.Pull
    dsimp only
    rw [hp]
  · intro d v hd hp hs
    rw [hd]
    unfold Manager.Pull
    dsimp only
    rw [hp]
    dsimp only
    rw [hs]

def c10BadSaltVault : Vault :=
  { version := "1.0".toList, salt := "###".toList, checksum := [],
    entries := [], createdAt := 1, updatedAt := 1, metadata := [] }

set_option maxRecDepth 400000 in
/-- C10 witness: a failed remote read, unparseable remote bytes, and a
remote vault with an undecodable salt each leave a concrete manager
untouched. -/
theorem C10_witness :
    (((NewManager none).Pull none "p".toList).2 = NewManager none) ∧
    ((NewManager none).Pull (some "junk".toList) "p".toList =
      (some .vaultCorrupted, NewManager none)) ∧
    ((NewManager none).Pull (some (renderVault c10BadSaltVault)) "p".toList =
      (some .vaultCorrupted, NewManager none)) :=
  ⟨(C10_pull_error_leaves_state (NewManager none) none "p".toList).1
     (by decide),
   (C10_pull_error_leaves_state (NewManager none) (some "junk".toList)
     "p".toList).2.2.1 "junk".toList rfl (by decide),
   (C10_pull_error_leaves_state (NewManager none)
     (some (renderVault c10BadSaltVault)) "p".toList).2.2.2
     (renderVault c10BadSaltVault) c10BadSaltVault rfl (by decide) (by decide)⟩

/-- The search loop visits each entry once; with pairwise-distinct ids and a
`seen` set disjoint from the entries, it is exactly a filter. -/
theorem searchLoop_filter (q : Str) (entries : List Entry) (seen : List Str)
    (hdis : ∀ e ∈ entries, e.id ∉ seen)
    (hnd : (entries.map Entry.id).Nodup) :
    searchLoop q entries seen =
      entries.filter (fun e => entryMatchMain q e || entryMatchTags q e) := by
  induction entries generalizing seen with
  | nil => rfl
  | cons e rest ih =>
      have hid : e.id ∉ seen := hdis e (by simp)
      have hnd' : (rest.map Entry.id).Nodup := (List.nodup_cons.1 hnd).2
      have hnotin : e.id ∉ rest.map Entry.id := (List.nodup_cons.1 hnd).1
      have hdis' : ∀ e' ∈ rest, e'.id ∉ (e.id :: seen) := by
        intro e' he'
        simp only [List.mem_cons]
        rintro (h | h)
        · exact hnotin (h ▸ List.mem_map_of_mem Entry.id he')
        · exact hdis e' (List.mem_cons_of_mem _ he') h
      have hdisrest : ∀ e' ∈ rest, e'.id ∉ seen := fun e' he' =>
        hdis e' (List.mem_cons_of_mem _ he')
      unfold searchLoop
      rw [if_neg hid]
      by_cases hm : entryMatchMain q e
      · rw [if_pos hm, ih (e.id :: seen) hdis' hnd']
        simp [List.filter_cons, hm]
      · rw [if_neg hm]
        by_cases ht : entryMatchTags q e
        · rw [if_pos ht, ih (e.id :: seen) hdis' hnd']
          simp [List.filter_cons, hm, ht]
        · rw [if_neg ht, ih seen hdisrest hnd']
          simp [List.filter_cons, hm, ht]

/-- C8 (claim): `SearchEntries` returns exactly the entries whose lower-cased
name, username, url or one of whose tags contains the lower-cased query —
each such entry exactly once (entries are distinct by id), in original vault
order: the result is precisely a filter of the entry list. -/
theorem C8_search_entries (m : Manager) (q : Str) (hopen : m.opn = true)
    (hids : (m.vault.entries.map Entry.id).Nodup) :
    m.SearchEntries q =
      .ok (m.vault.entries.filter
        (fun e => entryMatchMain (lowerStr q) e || entryMatchTags (lowerStr q) e)) := by
  unfold Manager.SearchEntries
  rw [hopen]
  rw [if_neg (by decide : ¬ (true = false))]
  rw [searchLoop_filter (lowerStr q) m.vault.entries [] (by simp) hids]

def c8Entry1 : Entry :=
  { id := "id-a".toList, name := "github".toList, username := "alice".toList,
    password := "x".toList, url := [], notes := [], createdAt := 1,
    updatedAt := 1, tags := ["git".toList, "work".toList] }

def c8Entry2 : Entry :=
  { id := "id-b".toList, name := "mail".toList, username := "bob".toList,
    password := "y".toList, url := [], notes := [], createdAt := 1,
    updatedAt := 1, tags := [] }

def c8Mgr : Manager :=
  { store := none, crypto := dummyCrypto,
    vault := { version := "1.0".toList, salt := [], checksum := [],
               entries := [c8Entry1, c8Entry2], createdAt := 1, updatedAt := 1,
               metadata := [] },
    salt := [], opn := true }

/-- C8 witness: a query hitting one entry on both its name and a tag returns
that entry exactly once, by the filter characterisation. -/
theorem C8_witness :
    c8Mgr.SearchEntries "git".toList = .ok [c8Entry1] := by
  have h := C8_search_entries c8Mgr "git".toList rfl (by decide)
  rw [h]
  decide

/-- The entry `AddEntry` returns: password always sealed under the session
key, notes sealed only when non-empty. -/
theorem addEntry_fst (m : Manager) (hopen : m.opn = true)
    (name username password url notes : Str) (tags : List Str) (id : Str)
    (nPw nNotes : Bytes) (t : Nat)
    (hfree : m.findEntryByName name = none) :
    (m.AddEntry name username password url notes tags id nPw nNotes t).1 = .ok
      { id := id, name := name, username := username,
        password := m.crypto.EncryptString nPw password, url := url,
        notes := if notes = [] then [] else m.crypto.EncryptString nNotes notes,
        createdAt := t, updatedAt := t, tags := tags } := by
  unfold Manager.AddEntry Manager.save NewEntry
  simp only [hopen, hfree]
  by_cases hn : notes = [] <;> simp [hn]

/-- The entry `UpdateEntry` returns is exactly the sparse update applied to
the stored entry. -/
theorem updateEntry_fst (m : Manager) (hopen : m.opn = true) (name : Str)
    (u : Updates) (nPw nNotes : Bytes) (t : Nat) (i : Nat) (e : Entry)
    (hidx : m.findEntryIndexByName name = some i)
    (hget : m.vault.entries.get? i = some e) :
    (m.UpdateEntry name u nPw nNotes t).1 = .ok
      (applyUpdates m.crypto e u nPw nNotes t) := by
  unfold Manager.UpdateEntry Manager.save
  simp only [hopen, hidx, hget]
  simp

theorem applyUpdates_notes (c : Crypto) (e : Entry) (u : Updates)
    (nPw nNotes : Bytes) (t : Nat) (notes : Str) (hnotes : u.notes = some notes) :
    (applyUpdates c e u nPw nNotes t).notes =
      (if notes = [] then [] else c.EncryptString nNotes notes) := by
  unfold applyUpdates
  rw [hnotes]
  rcases u.username with _ | x <;> rcases u.password with _ | y <;>
    rcases u.url with _ | z <;> by_cases hn : notes = [] <;> simp [hn]

/-- C9 (claim): the password field of a stored entry is always ciphertext
under the session key, while notes are encrypted only when non-empty:
`AddEntry`/`UpdateEntry` with empty notes store the plain empty string, and
`GetDecryptedNotes` on such an entry returns `""` for any key material
whatsoever — no decryption takes place. -/
theorem C9_notes_encryption (m : Manager) (hopen : m.opn = true) :
    (∀ name username password url notes tags id nPw nNotes t,
      m.findEntryByName name = none →
      ∃ e, (m.AddEntry name username password url notes tags id nPw nNotes t).1 =
          .ok e ∧
        e.password = m.crypto.EncryptString nPw password ∧
        e.notes = (if notes = [] then [] else m.crypto.EncryptString nNotes notes)) ∧
    (∀ name u nPw nNotes t i e, m.findEntryIndexByName name = some i →
      m.vault.entries.get? i = some e → u.notes = some [] →
      ∃ e', (m.UpdateEntry name u nPw nNotes t).1 = .ok e' ∧ e'.notes = []) ∧
    (∀ name u nPw nNotes t i e notes, m.findEntryIndexByName name = some i →
      m.vault.entries.get? i = some e → u.notes = some notes → notes ≠ [] →
      ∃ e', (m.UpdateEntry name u nPw nNotes t).1 = .ok e' ∧
        e'.notes = m.crypto.EncryptString nNotes notes) ∧
    (∀ name e, m.findEntryByName name = some e → e.notes = [] →
      ∀ c : Crypto,
        Manager.GetDecryptedNotes { m with crypto := c } name = .ok []) := by
  refine ⟨?_, ?_, ?_, ?_⟩
  · intro name username password url notes tags id nPw nNotes t hfree
    exact ⟨_, addEntry_fst m hopen name username password url notes tags id
      nPw nNotes t hfree, rfl, rfl⟩
  · intro name u nPw nNotes t i e hidx hget hnotes
    refine ⟨_, updateEntry_fst m hopen name u nPw nNotes t i e hidx hget, ?_⟩
    rw [applyUpdates_notes m.crypto e u nPw nNotes t [] hnotes]
    rfl
  · intro name u nPw nNotes t i e notes hidx hget hnotes hne
    refine ⟨_, updateEntry_fst m hopen name u nPw nNotes t i e hidx hget, ?_⟩
    rw [applyUpdates_notes m.crypto e u nPw nNotes t notes hnotes]
    rw [if_neg hne]
  · intro name e hfind hnotes c
    have h2 : Manager.findEntryByName
        { store := m.store, crypto := c, vault := m.vault, salt := m.salt,
          opn := true } name = some e := hfind
    unfold Manager.GetDecryptedNotes
    simp [hopen, h2, hnotes]

def c9Entry : Entry :=
  { id := "id-g".toList, name := "github".toList, username := "alice".toList,
    password := "c".toList, url := [], notes := [], createdAt := 1,
    updatedAt := 1, tags := [] }

def c9Mgr : Manager :=
  { store := none, crypto := Crypto.mk (deriveKey "mp".toList [9, 9]),
    vault := { version := "1.0".toList, salt := b64Encode [9, 9], checksum := [],
               entries := [c9Entry],
               createdAt := 1, updatedAt := 1, metadata := [] },
    salt := [9, 9], opn := true }

/-- C9 witness: adding an entry with empty notes stores plain-empty notes and
an encrypted password; updating notes to empty clears them; reading empty
notes succeeds under arbitrary key material. -/
theorem C9_witness :
    (∃ e, (c9Mgr.AddEntry "new".toList "u".toList "pw".toList [] [] []
        "id-n".toList [0, 0, 0, 0, 0, 0, 0, 0, 0, 0, 0, 0]
        [1, 1, 1, 1, 1, 1, 1, 1, 1, 1, 1, 1] 5).1 = .ok e ∧
      e.password = c9Mgr.crypto.EncryptString
        [0, 0, 0, 0, 0, 0, 0, 0, 0, 0, 0, 0] "pw".toList ∧
      e.notes = (if ([] : Str) = [] then []
                 else c9Mgr.crypto.EncryptString
                   [1, 1, 1, 1, 1, 1, 1, 1, 1, 1, 1, 1] [])) ∧
    (∃ e', (c9Mgr.UpdateEntry "github".toList
        ⟨none, none, none, some []⟩ [0, 0, 0, 0, 0, 0, 0, 0, 0, 0, 0, 0]
        [1, 1, 1, 1, 1, 1, 1, 1, 1, 1, 1, 1] 6).1 = .ok e' ∧ e'.notes = []) ∧
    (∀ c : Crypto,
      Manager.GetDecryptedNotes { c9Mgr with crypto := c } "github".toList =
        .ok []) :=
  ⟨(C9_notes_encryption c9Mgr rfl).1 "new".toList "u".toList "pw".toList [] []
     [] "id-n".toList _ _ 5 (by decide),
   (C9_notes_encryption c9Mgr rfl).2.1 "github".toList
     ⟨none, none, none, some []⟩ [0, 0, 0, 0, 0, 0, 0, 0, 0, 0, 0, 0]
     [1, 1, 1, 1, 1, 1, 1, 1, 1, 1, 1, 1] 6 0 c9Entry (by decide)
     (by decide) rfl,
   fun c => (C9_notes_encryption c9Mgr rfl).2.2.2 "github".toList c9Entry
     (by decide) (by decide) c⟩

/-! ## C4/C5: the canonical persist algorithm -/

/-- The canonical persist algorithm exactly as §4.2 of the spec states it:
stamp `updatedAt`, serialize with `checksum` blanked, compute the SHA-256
checksum over that byte sequence, re-serialize including the checksum.
(Spec-side definition, for comparison with the source-side `Manager.save`.) -/
def canonicalPersistText (v : Vault) (t : Nat) : Str :=
  let stamped := { v with updatedAt := t }
  let blanked := renderVault { stamped with checksum := [] }
  let c := ComputeChecksum (encStr blanked)
  renderVault { stamped with checksum := c }

theorem fsGet_fsSet_self (fs : FS) (p : Str) (d : Str) :
    fsGet (fsSet fs p d) p = some d := by
  induction fs with
  | nil => simp [fsSet, fsGet]
  | cons kv rest ih =>
      obtain ⟨q, e⟩ := kv
      by_cases h : q = p <;> simp [fsSet, fsGet, h, ih]

theorem fsGet_fsSet_ne (fs : FS) (p q : Str) (d : Str) (h : q ≠ p) :
    fsGet (fsSet fs q d) p = fsGet fs p := by
  induction fs with
  | nil => simp [fsSet, fsGet, h]
  | cons kv rest ih =>
      obtain ⟨q', e⟩ := kv
      by_cases h' : q' = q <;> simp [fsSet, fsGet, h, h', ih]

theorem path_ne_tmp (p : Str) : p ++ tmpSuffix ≠ p := by
  intro h
  have := congrArg List.length h
  simp [tmpSuffix] at this

/-- C4 (claim): `Manager.save` follows the canonical persist algorithm —
the bytes written are exactly the spec's stamp/blank/checksum/re-serialize
composition, the in-memory vault carries the recomputed checksum — and the
local backend's `Write` is write-temporary-then-rename: the destination path
is untouched after the temporary write and holds exactly the data after the
rename. -/
theorem C4_save_canonical (m : Manager) (t : Nat) (h : m.opn = true) :
    ((m.save t).1 = none ∧
     (m.save t).2.store = some (canonicalPersistText m.vault t) ∧
     (m.save t).2.vault =
       { m.vault with
         updatedAt := t
         checksum := ComputeChecksum (encStr (renderVault
           { m.vault with updatedAt := t, checksum := [] })) }) ∧
    (∀ (s : LocalStorage) (data : Str) (fs : FS),
      fsGet (s.writeTmp data fs) s.path = fsGet fs s.path ∧
      fsGet (s.Write data fs) s.path = some data) := by
  constructor
  · unfold Manager.save canonicalPersistText
    simp [h]
  · intro s data fs
    constructor
    · unfold LocalStorage.writeTmp
      exact fsGet_fsSet_ne fs s.path (s.path ++ tmpSuffix) data (path_ne_tmp s.path)
    · unfold LocalStorage.Write LocalStorage.writeTmp fsRename
      rw [fsGet_fsSet_self]
      exact fsGet_fsSet_self _ s.path data

def c4Mgr : Manager :=
  { store := none, crypto := dummyCrypto,
    vault := { version := "1.0".toList, salt := b64Encode [7], checksum := [],
               entries := [], createdAt := 1, updatedAt := 1, metadata := [] },
    salt := [7], opn := true }

/-- C4 witness at a concrete open manager and a concrete filesystem. -/
theorem C4_witness :
    ((c4Mgr.save 3).1 = none ∧
     (c4Mgr.save 3).2.store = some (canonicalPersistText c4Mgr.vault 3) ∧
     (c4Mgr.save 3).2.vault =
       { c4Mgr.vault with
         updatedAt := 3
         checksum := ComputeChecksum (encStr (renderVault
           { c4Mgr.vault with updatedAt := 3, checksum := [] })) }) ∧
    (fsGet ((LocalStorage.mk "v.json".toList).writeTmp "d".toList [])
       "v.json".toList = fsGet [] "v.json".toList ∧
     fsGet ((LocalStorage.mk "v.json".toList).Write "d".toList [])
       "v.json".toList = some "d".toList) :=
  ⟨(C4_save_canonical c4Mgr 3 rfl).1,
   (C4_save_canonical c4Mgr 3 rfl).2 (LocalStorage.mk "v.json".toList)
     "d".toList []⟩

/-! ## C5: Sync versus the canonical persist -/

theorem escChar_b64Chr_lt : ∀ s : Nat, s < 64 → escChar (b64Chr s) = [b64Chr s] := by
  decide

theorem b64Chr_ge (s : Nat) (h : ¬ s < 64) : b64Chr s = 'A' := by
  unfold b64Chr
  rw [List.getD_eq_default]
  have : b64Alphabet.length = 64 := by decide
  omega

theorem escChar_b64Chr (s : Nat) : escChar (b64Chr s) = [b64Chr s] := by
  by_cases h : s < 64
  · exact escChar_b64Chr_lt s h
  · rw [b64Chr_ge s h]; decide

/-- base64 output never needs JSON escaping. -/
theorem escStr_b64Encode (bs : Bytes) : escStr (b64Encode bs) = b64Encode bs := by
  induction bs using b64Encode.induct with
  | case1 => rfl
  | case2 b1 =>
      simp [b64Encode, escStr, escChar_b64Chr]
      decide
  | case3 b1 b2 =>
      simp [b64Encode, escStr, escChar_b64Chr]
      decide
  | case4 b1 b2 b3 rest ih =>
      simp [b64Encode, escStr, escChar_b64Chr, ih]

/-- Length of a rendered vault as a function of its checksum field. -/
theorem renderVault_length_checksum (v : Vault) (c : Str) :
    (renderVault { v with checksum := c }).length =
    (renderVault { v with checksum := [] }).length + (escStr c).length := by
  have hnil : escStr [] = [] := rfl
  by_cases hm : v.metadata = [] <;>
    simp [renderVault, renderObj, joinSep, fieldS, qstr, hm, hnil,
      List.length_append] <;> omega

/-- The in-memory checksum agrees with the current vault content (the state
every `save` leaves behind). -/
def checksumFresh (v : Vault) : Prop :=
  v.checksum = ComputeChecksum (encStr (renderVault { v with checksum := [] }))

def c5Vault : Vault :=
  { version := "1.0".toList, salt := b64Encode [5, 6], checksum := "bogus".toList,
    entries := [], createdAt := 2, updatedAt := 2, metadata := [] }

set_option maxRecDepth 400000 in
/-- C5 (counterexample): a manager opened from a stored vault whose checksum
field is stale (`Open` performs no checksum verification) `Sync`s those very
bytes to the remote: the written byte sequence is the plain re-serialization
of the in-memory vault and differs from what persisting at that moment would
produce — no checksum is recomputed before the remote write. -/
theorem C5_counterexample :
    ((NewManager (some (renderVault c5Vault))).Open "pw".toList).1 = none ∧
    ((NewManager (some (renderVault c5Vault))).Open "pw".toList).2.Sync none =
      .ok (some (renderVault c5Vault)) ∧
    renderVault c5Vault ≠ canonicalPersistText c5Vault c5Vault.updatedAt := by
  refine ⟨by decide, by decide, ?_⟩
  intro heq
  have hlen := congrArg List.length heq
  have h1 : (renderVault c5Vault).length =
      (renderVault { c5Vault with checksum := [] }).length +
      (escStr "bogus".toList).length :=
    renderVault_length_checksum c5Vault "bogus".toList
  have h2 : (canonicalPersistText c5Vault c5Vault.updatedAt).length =
      (renderVault { c5Vault with checksum := [] }).length +
      (escStr (ComputeChecksum (encStr (renderVault
        { c5Vault with checksum := [] })))).length :=
    renderVault_length_checksum c5Vault _
  have h3 : (escStr (ComputeChecksum (encStr (renderVault
      { c5Vault with checksum := [] })))).length = 44 := by
    unfold ComputeChecksum
    rw [escStr_b64Encode, ← ComputeChecksum]
    exact ComputeChecksum_length _
  have h4 : (escStr "bogus".toList).length = 5 := rfl
  omega

/-- C5 (amended): `Sync` writes the serialization of the in-memory vault
exactly as it stands — it restamps no `updatedAt` and recomputes no
checksum; the written bytes carry whatever checksum the vault already
holds.  When that checksum is fresh (the state every `save` — hence every
mutation — leaves behind), those bytes coincide with what the canonical
persist at the vault's own `updatedAt` instant would produce, i.e. with the
bytes the last local save wrote. -/
theorem C5_sync_serializes_vault_asis (m : Manager) (r : Option Str)
    (h : m.opn = true) :
    m.Sync r = .ok (some (renderVault m.vault)) ∧
    (checksumFresh m.vault →
      canonicalPersistText m.vault m.vault.updatedAt = renderVault m.vault ∧
      (m.save m.vault.updatedAt).2.store = some (renderVault m.vault)) := by
  constructor
  · unfold Manager.Sync
    simp [h]
  · intro hf
    unfold checksumFresh at hf
    constructor
    · unfold canonicalPersistText
      dsimp only
      rw [← hf]
    · unfold Manager.save
      simp only [h]
      rw [if_neg (by decide : ¬ (true = false))]
      dsimp only
      rw [← hf]

def c5FreshBase : Vault :=
  { version := "1.0".toList, salt := b64Encode [5, 6], checksum := [],
    entries := [], createdAt := 2, updatedAt := 2, metadata := [] }

def c5FreshVault : Vault :=
  { c5FreshBase with
    checksum := ComputeChecksum (encStr (renderVault c5FreshBase)) }

def c5FreshMgr : Manager :=
  { store := some (renderVault c5FreshVault), crypto := dummyCrypto,
    vault := c5FreshVault, salt := [5, 6], opn := true }

set_option maxRecDepth 400000 in
/-- C5 witness: at a concrete checksum-fresh open manager, `Sync` writes the
in-memory serialization, which equals the canonical persist at the vault's
own timestamp. -/
theorem C5_witness :
    c5FreshMgr.Sync none = .ok (some (renderVault c5FreshVault)) ∧
    canonicalPersistText c5FreshVault c5FreshVault.updatedAt =
      renderVault c5FreshVault :=
  ⟨(C5_sync_serializes_vault_asis c5FreshMgr none rfl).1,
   ((C5_sync_serializes_vault_asis c5FreshMgr none rfl).2 rfl).1⟩

/-! ## C6: Init precondition -/

def c6RemoteVault : Vault :=
  { version := "1.0".toList, salt := b64Encode [3, 1], checksum := [],
    entries := [], createdAt := 1, updatedAt := 1, metadata := [] }

set_option maxRecDepth 400000 in
/-- C6 (counterexample): `Init` checks only that the backing store exists,
not the open flag.  A manager with no local backing file that `Pull`s a
vault from a remote becomes Open with a non-existent store; `Init` on that
Open manager then succeeds instead of failing `VaultExists`, contradicting
"valid only when the manager is in the Closed state … fails `VaultExists`
otherwise". -/
theorem C6_counterexample :
    ((NewManager none).Pull (some (renderVault c6RemoteVault))
        "pw".toList).1 = none ∧
    ((NewManager none).Pull (some (renderVault c6RemoteVault))
        "pw".toList).2.opn = true ∧
    ((NewManager none).Pull (some (renderVault c6RemoteVault))
        "pw".toList).2.store = none ∧
    (((NewManager none).Pull (some (renderVault c6RemoteVault))
        "pw".toList).2.Init "other".toList [0, 1, 2, 3] 7).1 = none := by
  refine ⟨by decide, by decide, by decide, by decide⟩

/-- C6 (amended): `Init` is guarded solely by store existence: it fails
`VaultExists` exactly when the backing store exists (whatever the open
flag), and otherwise — even from an Open manager, as after a `Pull` with no
local backing file — it succeeds: it stamps a fresh empty vault with the
base64 of the supplied random salt, derives the key from the new salt,
persists the vault, and leaves the manager Open on the persisted bytes. -/
theorem C6_init_store_guard (m : Manager) (pw : Str) (saltR : Bytes) (t : Nat) :
    (m.store.isSome = true → m.Init pw saltR t = (some .vaultExists, m)) ∧
    (m.store = none →
      (m.Init pw saltR t).1 = none ∧
      (m.Init pw saltR t).2.opn = true ∧
      (m.Init pw saltR t).2.salt = saltR ∧
      (m.Init pw saltR t).2.crypto = NewCrypto pw saltR ∧
      (m.Init pw saltR t).2.vault.salt = b64Encode saltR ∧
      (m.Init pw saltR t).2.vault.entries = [] ∧
      (m.Init pw saltR t).2.store =
        some (canonicalPersistText { NewVault t with salt := b64Encode saltR } t)) := by
  constructor
  · intro hs
    unfold Manager.Init
    rw [if_pos hs]
  · intro hn
    unfold Manager.Init
    rw [hn]
    rw [if_neg (by decide : ¬ (Option.isSome (none : Option Str) = true))]
    unfold Manager.save canonicalPersistText
    simp [NewVault]

/-- C6 witness: `Init` on an existing store fails `VaultExists`; on an
absent store it succeeds and leaves an Open manager on a fresh salted empty
vault. -/
theorem C6_witness :
    ((NewManager (some "x".toList)).Init "pw".toList [0, 1] 4 =
      (some .vaultExists, NewManager (some "x".toList))) ∧
    (((NewManager none).Init "pw".toList [0, 1] 4).1 = none ∧
      ((NewManager none).Init "pw".toList [0, 1] 4).2.opn = true ∧
      ((NewManager none).Init "pw".toList [0, 1] 4).2.vault.salt =
        b64Encode [0, 1]) :=
  ⟨(C6_init_store_guard (NewManager (some "x".toList)) "pw".toList [0, 1] 4).1
     rfl,
   ⟨((C6_init_store_guard (NewManager none) "pw".toList [0, 1] 4).2 rfl).1,
    ((C6_init_store_guard (NewManager none) "pw".toList [0, 1] 4).2 rfl).2.1,
    ((C6_init_store_guard (NewManager none) "pw".toList [0, 1] 4).2 rfl).2.2.2.2.1⟩⟩

/-! ## C7: the salt never changes -/

/-- One manager operation of the kinds C7 ranges over, carrying its oracle
inputs (nonces, uuid, clock). -/
inductive Op where
  | add (name username password url notes : Str) (tags : List Str) (id : Str)
        (nPw nNotes : Bytes) (t : Nat)
  | getE (name : Str)
  | getPw (name : Str)
  | getNotes (name : Str)
  | upd (name : Str) (u : Updates) (nPw nNotes : Bytes) (t : Nat)
  | del (name : Str) (t : Nat)
  | search (q : Str)
  | saveV (t : Nat)
  | syncV

/-- Execute one operation on (manager, remote blob).  Read-only operations
return values but do not touch state; `Sync` writes the remote blob. -/
def stepOp (p : Manager × Option Str) : Op → Manager × Option Str
  | .add name username password url notes tags id nPw nNotes t =>
      ((p.1.AddEntry name username password url notes tags id nPw nNotes t).2, p.2)
  | .getE _ => p
  | .getPw _ => p
  | .getNotes _ => p
  | .upd name u nPw nNotes t => ((p.1.UpdateEntry name u nPw nNotes t).2, p.2)
  | .del name t => ((p.1.DeleteEntry name t).2, p.2)
  | .search _ => p
  | .saveV t => ((p.1.save t).2, p.2)
  | .syncV =>
      (p.1, match p.1.Sync p.2 with
            | .ok r => r
            | .error _ => p.2)

def runOps (p : Manager × Option Str) : List Op → Manager × Option Str
  | [] => p
  | op :: rest => runOps (stepOp p op) rest

/-- A durable blob is either untouched or a vault serialization carrying
salt `s0`. -/
def SaltBlob (s0 : Str) (old cur : Option Str) : Prop :=
  cur = old ∨ ∃ v : Vault, cur = some (renderVault v) ∧ v.salt = s0

/-- One step preserves the salt: in memory, in the key-material salt field,
and in everything newly persisted. -/
def SaltStep (m m' : Manager) (r r' : Option Str) : Prop :=
  m'.vault.salt = m.vault.salt ∧ m'.salt = m.salt ∧
  SaltBlob m.vault.salt m.store m'.store ∧ SaltBlob m.vault.salt r r'

theorem saltBlob_refl (s0 : Str) (o : Option Str) : SaltBlob s0 o o := .inl rfl

theorem saltStep_refl (m : Manager) (r : Option Str) : SaltStep m m r r :=
  ⟨rfl, rfl, saltBlob_refl _ _, saltBlob_refl _ _⟩

theorem saltStep_trans {m m' m'' : Manager} {r r' r'' : Option Str}
    (h1 : SaltStep m m' r r') (h2 : SaltStep m' m'' r' r'') :
    SaltStep m m'' r r'' := by
  obtain ⟨a1, b1, c1, d1⟩ := h1
  obtain ⟨a2, b2, c2, d2⟩ := h2
  rw [a1] at a2 c2 d2
  refine ⟨a2, b2.trans b1, ?_, ?_⟩
  · rcases c2 with h | ⟨v, hv, hs⟩
    · rw [h]; exact c1
    · exact .inr ⟨v, hv, hs⟩
  · rcases d2 with h | ⟨v, hv, hs⟩
    · rw [h]; exact d1
    · exact .inr ⟨v, hv, hs⟩

theorem saltStep_save (m : Manager) (t : Nat) (r : Option Str) :
    SaltStep m (m.save t).2 r r := by
  unfold Manager.save
  by_cases h : m.opn = false
  · simp only [h, if_pos rfl]
    exact saltStep_refl m r
  · rw [if_neg h]
    refine ⟨rfl, rfl, .inr ⟨_, rfl, rfl⟩, saltBlob_refl _ _⟩

/-- Transport `saltStep_save` along an equation for the save result, from a
manager `M` that agrees with `m` on salt fields and store. -/
theorem saltStep_of_save_eq {m M m2 : Manager} {t : Nat} {err : Option Err}
    (heq : M.save t = (err, m2))
    (hv : M.vault.salt = m.vault.salt) (hs : M.salt = m.salt)
    (hst : M.store = m.store) (r : Option Str) :
    SaltStep m m2 r r := by
  have h2 := saltStep_save M t r
  rw [heq] at h2
  obtain ⟨a, b, c, d⟩ := h2
  refine ⟨a.trans hv, b.trans hs, ?_, ?_⟩
  · rw [← hv, ← hst]; exact c
  · rw [← hv]; exact d

/-- As `saltStep_of_save_eq`, with the save result left in place. -/
theorem saltStep_save_snd {m : Manager} (M : Manager) (t : Nat)
    (hv : M.vault.salt = m.vault.salt) (hs : M.salt = m.salt)
    (hst : M.store = m.store) (r : Option Str) :
    SaltStep m (M.save t).2 r r := by
  rcases heq : M.save t with ⟨err, m2⟩
  exact saltStep_of_save_eq heq hv hs hst r

set_option maxHeartbeats 1000000 in
theorem saltStep_stepOp (p : Manager × Option Str) (op : Op) :
    SaltStep p.1 (stepOp p op).1 p.2 (stepOp p op).2 := by
  obtain ⟨m, r⟩ := p
  cases op with
  | add name username password url notes tags id nPw nNotes t =>
      dsimp only [stepOp]
      unfold Manager.AddEntry
      by_cases h : m.opn = false
      · simp only [h, if_pos rfl]; exact saltStep_refl m r
      · rw [if_neg h]
        by_cases hf : (m.findEntryByName name).isSome = true
        · rw [if_pos hf]; exact saltStep_refl m r
        · rw [if_neg hf]
          dsimp only
          split
          · rename_i m2 heq
            exact saltStep_of_save_eq heq rfl rfl rfl r
          · rename_i err m2 heq
            exact saltStep_of_save_eq heq rfl rfl rfl r
  | getE name => exact saltStep_refl m r
  | getPw name => exact saltStep_refl m r
  | getNotes name => exact saltStep_refl m r
  | upd name u nPw nNotes t =>
      dsimp only [stepOp]
      unfold Manager.UpdateEntry
      by_cases h : m.opn = false
      · simp only [h, if_pos rfl]; exact saltStep_refl m r
      · rw [if_neg h]
        split
        · exact saltStep_refl m r
        · rename_i i heqidx
          split
          · exact saltStep_refl m r
          · rename_i e heqget
            dsimp only
            split
            · rename_i m2 heq
              exact saltStep_of_save_eq heq rfl rfl rfl r
            · rename_i err m2 heq
              exact saltStep_of_save_eq heq rfl rfl rfl r
  | del name t =>
      dsimp only [stepOp]
      unfold Manager.DeleteEntry
      by_cases h : m.opn = false
      · simp only [h, if_pos rfl]; exact saltStep_refl m r
      · rw [if_neg h]
        split
        · exact saltStep_refl m r
        · rename_i i heqidx
          refine saltStep_save_snd _ t ?_ ?_ ?_ r <;> rfl
  | search q => exact saltStep_refl m r
  | saveV t => exact saltStep_save m t r
  | syncV =>
      dsimp only [stepOp]
      unfold Manager.Sync
      by_cases h : m.opn = false
      · simp only [h, if_pos rfl]
        exact saltStep_refl m r
      · rw [if_neg h]
        dsimp only
        exact ⟨rfl, rfl, saltBlob_refl _ _, .inr ⟨m.vault, rfl, rfl⟩⟩

/-- C7 (claim): no operation sequence over an open manager — entry CRUD,
reads, searches, saves and syncs — ever changes the vault's salt: the
in-memory salt (both the vault field and the key-material salt) is preserved
verbatim, and every blob those operations persist, locally or remotely, is a
vault serialization carrying that same salt. -/
theorem C7_salt_never_changes (m : Manager) (r : Option Str) (ops : List Op) :
    (runOps (m, r) ops).1.vault.salt = m.vault.salt ∧
    (runOps (m, r) ops).1.salt = m.salt ∧
    SaltBlob m.vault.salt m.store (runOps (m, r) ops).1.store ∧
    SaltBlob m.vault.salt r (runOps (m, r) ops).2 := by
  suffices h : ∀ (p : Manager × Option Str) (ops : List Op),
      SaltStep p.1 (runOps p ops).1 p.2 (runOps p ops).2 from h (m, r) ops
  intro p ops
  induction ops generalizing p with
  | nil => exact saltStep_refl p.1 p.2
  | cons op rest ih =>
      exact saltStep_trans (saltStep_stepOp p op) (ih (stepOp p op))

end CipherHub

